import Mathlib

/-!
Shallow embedding of the Scene orchestration engine of `src/scene/scene.py`:
scene-object bookkeeping (`add`/`remove`), the time-stepped playback loop
(`play`), the range-overwrite path (`play_over_time_range`), the frame-buffer
bulk operation `invert_colors`, and the frame-rate computation of the export
paths (`write_to_movie`/`write_to_gif`).

Conventions of the embedding:
- machine floats of the source are modelled as exact rationals (`ℚ`);
- Python exceptions are modelled with `Except`/`Option` results;
- the external rasterizer ("camera") is a state consisting of its current
  image and a log of the operations performed on it; the actual painting step
  is an abstract function `cap` carried by the camera;
- `uint8` pixel samples are naturals, with arithmetic taken mod 256.
-/

/-- A raster frame: a flat sequence of 0–255 channel samples (`numpy` array
of dtype `uint8`, flattened). -/
abbrev Frame : Type := List ℕ

/-- Modelled from the spec: a scene object ("mobject", `mobject.py` is outside
`src/`) is a drawable with an identity and nested children.  Identity-based
Python equality is modelled by structural equality on a distinguishing
identifier. -/
inductive Mobject : Type
  | mk (ident : ℕ) (submobjects : List Mobject)

mutual

def Mobject.decEq : (a b : Mobject) → Decidable (a = b)
  | .mk i subs, .mk j tubs =>
    match Nat.decEq i j with
    | .isFalse h => .isFalse (fun hc => by cases hc; exact h rfl)
    | .isTrue h =>
      match Mobject.decEqList subs tubs with
      | .isFalse h2 => .isFalse (fun hc => by cases hc; exact h2 rfl)
      | .isTrue h2 => .isTrue (by rw [h, h2])

def Mobject.decEqList : (a b : List Mobject) → Decidable (a = b)
  | [], [] => .isTrue rfl
  | [], _ :: _ => .isFalse (by intro hc; cases hc)
  | _ :: _, [] => .isFalse (by intro hc; cases hc)
  | a :: as0, b :: bs =>
    match Mobject.decEq a b with
    | .isFalse h => .isFalse (fun hc => by cases hc; exact h rfl)
    | .isTrue h =>
      match Mobject.decEqList as0 bs with
      | .isFalse h2 => .isFalse (fun hc => by cases hc; exact h2 rfl)
      | .isTrue h2 => .isTrue (by rw [h, h2])

end

instance : DecidableEq Mobject := Mobject.decEq

instance : Inhabited Mobject := ⟨.mk 0 []⟩

def Mobject.ident : Mobject → ℕ
  | .mk i _ => i

def Mobject.submobjects : Mobject → List Mobject
  | .mk _ subs => subs

/-- First-occurrence deduplication of a list, keeping the original order. -/
def dedupFirst {α : Type} [DecidableEq α] : List α → List α
  | [] => []
  | x :: xs => x :: dedupFirst (xs.filter (fun y => y ≠ x))
termination_by l => l.length
decreasing_by
  simp only [List.length_cons]
  exact Nat.lt_succ_of_le (List.length_filter_le _ _)

/-- Modelled from the spec: `Mobject.submobject_family` (`mobject.py` is
outside `src/`) — "the full descendant family (self + nested children,
recursively, deduplicated)", traversal order pre-order, self first. -/
def Mobject.submobject_family : Mobject → List Mobject
  | .mk i subs =>
    dedupFirst (.mk i subs :: (subs.attach.map (fun x => x.1.submobject_family)).flatten)
decreasing_by
  have := List.sizeOf_lt_of_mem x.2
  simp only [Mobject.mk.sizeOf_spec]
  omega

/-- All identifiers occurring anywhere in a mobject tree. -/
def Mobject.allIds : Mobject → List ℕ
  | .mk i subs => i :: (subs.attach.map (fun x => x.1.allIds)).flatten
decreasing_by
  have := List.sizeOf_lt_of_mem x.2
  simp only [Mobject.mk.sizeOf_spec]
  omega

/-- An identifier not occurring in any of the given mobject trees: models
Python's allocation of a fresh object identity. -/
def fresh_id (ms : List Mobject) : ℕ :=
  ((ms.map Mobject.allIds).flatten.foldr max 0) + 1

/-- A Python value handed to `add`/`remove`: either a mobject or some
non-drawable object. -/
inductive PyObj : Type
  | mob (m : Mobject)
  | other (tag : ℕ)
deriving DecidableEq

/-- Modelled from the spec: `helpers.all_elements_are_instances(iterable,
Mobject)` (`helpers.py` is outside `src/`) — the "is a drawable" capability
check: every element is an instance of `Mobject`. -/
def all_elements_are_instances (objs : List PyObj) : Bool :=
  objs.all fun x => match x with
    | .mob _ => true
    | .other _ => false

/-- The mobjects among a list of Python values, in order. -/
def extract_mobjects (objs : List PyObj) : List Mobject :=
  objs.foldr (fun x acc => match x with
    | .mob m => m :: acc
    | .other _ => acc) []

/-- An animation (external type): bound to one target mobject, with a fixed
`run_time`.  Its observable effect is modelled by the log of progress values
its `update` has received and a count of `clean_up` calls. -/
structure Animation : Type where
  mobject : Mobject
  run_time : ℚ
  progress_log : List ℚ
  cleaned : ℕ

instance : Inhabited Animation := ⟨⟨default, 0, [], 0⟩⟩

/-- `Animation.update(alpha)`: the animation receives one progress value. -/
def Animation.update (a : Animation) (alpha : ℚ) : Animation :=
  { a with progress_log := a.progress_log ++ [alpha] }

/-- `Animation.clean_up()`. -/
def Animation.clean_up (a : Animation) : Animation :=
  { a with cleaned := a.cleaned + 1 }

/-- One operation performed on the external rasterizer. -/
inductive CamEvent : Type
  | reset
  | setImage (f : Frame)
  | capture (ms : List Mobject) (include_submobjects : Bool)
deriving DecidableEq

/-- The external rasterizer ("camera"): its current backing image, its blank
background, the abstract painting function `cap` (image, drawables, flatten
flag → image), and the log of operations performed on it. -/
structure Camera : Type where
  cap : Frame → List Mobject → Bool → Frame
  background : Frame
  image : Frame
  log : List CamEvent

/-- `Camera.reset()`: clears the internal image back to the background. -/
def Camera.reset (c : Camera) : Camera :=
  { c with image := c.background, log := c.log ++ [.reset] }

/-- `Camera.set_image(frame)`: seeds the internal image from a given frame. -/
def Camera.set_image (c : Camera) (f : Frame) : Camera :=
  { c with image := f, log := c.log ++ [.setImage f] }

/-- `Camera.capture_mobjects(mobjects, include_submobjects)`: paints the given
drawables onto the current internal image. -/
def Camera.capture_mobjects (c : Camera) (ms : List Mobject) (include_submobjects : Bool) :
    Camera :=
  { c with image := c.cap c.image ms include_submobjects,
           log := c.log ++ [.capture ms include_submobjects] }

/-- `Camera.get_image()`. -/
def Camera.get_image (c : Camera) : Frame := c.image

/-- The Scene state: camera, frame buffer, scene-object set, animation counter
and the frame step `frame_duration`. -/
structure Scene : Type where
  camera : Camera
  frames : List Frame
  mobjects : List Mobject
  num_animations : ℕ
  frame_duration : ℚ

/-! ### Python / numpy numeric primitives, over exact rationals -/

/-- Python `int(x)`: truncation toward zero. -/
def py_int (x : ℚ) : ℤ :=
  if 0 ≤ x then ⌊x⌋ else ⌈x⌉

/-- Python `%` on floats: the remainder `a - b * ⌊a / b⌋`, which carries the
sign of the divisor. -/
def py_float_mod (a b : ℚ) : ℚ :=
  a - b * ⌊a / b⌋

/-- `numpy.arange(start, stop, step)`: `⌈(stop - start) / step⌉` values (0 if
that is negative), the k-th being `start + k * step`. -/
def np_arange (start stop step : ℚ) : List ℚ :=
  (List.range (⌈(stop - start) / step⌉.toNat)).map (fun k : ℕ => start + (k : ℚ) * step)

/-- `uint8` subtraction: wraps modulo 256. -/
def uint8_sub (a b : ℕ) : ℕ :=
  (a + 256 - b) % 256

/-- Python list-index resolution: an index `i` with `0 ≤ i < len` is used as
is, a negative `i` with `-len ≤ i` wraps to `len + i`, anything else raises
`IndexError` (modelled as `none`). -/
def py_resolve (len : ℕ) (i : ℤ) : Option ℕ :=
  if 0 ≤ i ∧ i < (len : ℤ) then some i.toNat
  else if -(len : ℤ) ≤ i ∧ i < 0 then some ((len : ℤ) + i).toNat
  else none

/-! ### Scene operations, from `src/scene/scene.py` -/

/-- `Scene.get_frame()`. -/
def Scene.get_frame (s : Scene) : Frame :=
  s.camera.get_image

/-- `Scene.update_frame(mobjects, background, include_submobjects)`: seed the
camera from `background` (or reset it), then capture the given mobjects (the
whole `SceneObjectSet` when none are given). -/
def Scene.update_frame (s : Scene) (mobjects : Option (List Mobject))
    (background : Option Frame) (include_submobjects : Bool) : Scene :=
  let ms := mobjects.getD s.mobjects
  let cam := match background with
    | some b => s.camera.set_image b
    | none => s.camera.reset
  { s with camera := cam.capture_mobjects ms include_submobjects }

/-- The list mutation at the heart of `Scene.add`: drop every existing
occurrence of the new mobjects, then append them in argument order. -/
def add_filter (mobjects new : List Mobject) : List Mobject :=
  mobjects.filter (fun m => ¬ m ∈ new) ++ new

/-- `Scene.add(*mobjects)`: raises unless every argument is a mobject;
otherwise re-inserts the arguments at the top of the paint order. -/
def Scene.add (s : Scene) (objs : List PyObj) : Except String Scene :=
  if ¬ all_elements_are_instances objs then
    .error "Adding something which is not a mobject"
  else
    .ok { s with mobjects := add_filter s.mobjects (extract_mobjects objs) }

/-- `Scene.remove(*mobjects)`: raises unless every argument is a mobject;
otherwise removes the arguments that are present (no-op when none are). -/
def Scene.remove (s : Scene) (objs : List PyObj) : Except String Scene :=
  if ¬ all_elements_are_instances objs then
    .error "Removing something which is not a mobject"
  else
    let ms := (extract_mobjects objs).filter (fun m => m ∈ s.mobjects)
    if ms.length = 0 then .ok s
    else .ok { s with mobjects := s.mobjects.filter (fun m => ¬ m ∈ ms) }

/-- `Scene.align_run_times(*animations, **kwargs)`: every animation adopts the
`run_time` keyword argument, or the first animation's `run_time`. -/
def Scene.align_run_times (animations : List Animation) (run_time_kwarg : Option ℚ) :
    List Animation :=
  let run_time := run_time_kwarg.getD (animations.headD default).run_time
  animations.map (fun a => { a with run_time := run_time })

/-- `Scene.separate_moving_and_static_mobjects(*animations)`: the moving set is
the concatenated submobject families of the animations' targets; the static
set is the family of a freshly bundled `Mobject(*self.mobjects)` minus the
moving set. -/
def Scene.separate_moving_and_static_mobjects (s : Scene) (animations : List Animation) :
    List Mobject × List Mobject :=
  let moving_mobjects := (animations.map (fun (a : Animation) => a.mobject.submobject_family)).flatten
  let bundle := Mobject.mk (fresh_id (s.mobjects ++ animations.map (fun (a : Animation) => a.mobject))) s.mobjects
  let static_mobjects := bundle.submobject_family.filter (fun m => ¬ m ∈ moving_mobjects)
  (moving_mobjects, static_mobjects)

/-- `Scene.get_time_progression(animations)`: the times
`numpy.arange(0, run_time, frame_duration)` of the first animation. -/
def Scene.get_time_progression (s : Scene) (animations : List Animation) : List ℚ :=
  np_arange 0 (animations.headD default).run_time s.frame_duration

/-- One step of the `play` loop at time `t`: advance every animation to
`t / run_time`, rasterize the moving set over the cached static image, and
append the captured frame. -/
def play_step (moving : List Mobject) (static_image : Frame) (t : ℚ)
    (p : Scene × List Animation) : Scene × List Animation :=
  let anims := p.2.map (fun a => a.update (t / a.run_time))
  let st := p.1.update_frame (some moving) (some static_image) true
  ({ st with frames := st.frames ++ [st.get_frame] }, anims)

/-- The `for t in self.get_time_progression(animations)` loop of `Scene.play`. -/
def play_loop (moving : List Mobject) (static_image : Frame) :
    List ℚ → Scene × List Animation → Scene × List Animation
  | [], p => p
  | t :: ts, p => play_loop moving static_image ts (play_step moving static_image t p)

/-- `Scene.play(*animations, **kwargs)`.  `run_time_kwarg` is the optional
`run_time` keyword argument.  With no animations the source executes
`raise Warning(...)`, which propagates as an exception (the `return` after it
is unreachable): modelled as an `Except.error`. -/
def Scene.play (s : Scene) (animations : List Animation) (run_time_kwarg : Option ℚ) :
    Except String (Scene × List Animation) :=
  if animations.length = 0 then
    .error "Called Scene.play with no animations"
  else
    let s1 := { s with
      num_animations := s.num_animations + 1,
      mobjects := add_filter s.mobjects (animations.map (fun (a : Animation) => a.mobject)) }
    let anims := Scene.align_run_times animations run_time_kwarg
    let pair := s1.separate_moving_and_static_mobjects anims
    let s2 := s1.update_frame (some pair.2) none false
    let static_image := s2.get_frame
    let out := play_loop pair.1 static_image (s2.get_time_progression anims) (s2, anims)
    .ok (out.1, out.2.map (fun (a : Animation) => a.clean_up))

/-- `Scene.dither(duration)`: render the current scene once and append
`int(duration / frame_duration)` copies of that frame. -/
def Scene.dither (s : Scene) (duration : ℚ) : Scene :=
  let st := s.update_frame none none true
  { st with frames :=
      st.frames ++ List.replicate (py_int (duration / st.frame_duration)).toNat st.get_frame }

/-- One step of the `play_over_time_range` loop at time `t`: advance every
animation to the local progress `(t - t0)/(t1 - t0)`, read the frame stored at
index `int(t / frame_duration)` as compositing backdrop, rasterize the moving
set onto it, and overwrite that index.  An out-of-range index is an
`IndexError` (`none`). -/
def potr_step (moving : List Mobject) (t0 t1 t : ℚ)
    (p : Scene × List Animation) : Option (Scene × List Animation) :=
  let anims := p.2.map (fun a => a.update ((t - t0) / (t1 - t0)))
  let index := py_int (t / p.1.frame_duration)
  match py_resolve p.1.frames.length index with
  | none => none
  | some j =>
    match p.1.frames[j]? with
    | none => none
    | some backdrop =>
      let st := p.1.update_frame (some moving) (some backdrop) true
      some ({ st with frames := st.frames.set j st.get_frame }, anims)

/-- The `for t in np.arange(t0, t1, frame_duration)` loop of
`Scene.play_over_time_range`. -/
def potr_loop (moving : List Mobject) (t0 t1 : ℚ) :
    List ℚ → Scene × List Animation → Option (Scene × List Animation)
  | [], p => some p
  | t :: ts, p => (potr_step moving t0 t1 t p).bind (potr_loop moving t0 t1 ts)

/-- `Scene.play_over_time_range(t0, t1, *animations)`. -/
def Scene.play_over_time_range (s : Scene) (t0 t1 : ℚ) (animations : List Animation) :
    Option (Scene × List Animation) :=
  let needed_scene_time := max |t0| |t1|
  let existing0 := (s.frames.length : ℚ) * s.frame_duration
  let sd := if existing0 < needed_scene_time
    then s.dither (needed_scene_time - existing0) else s
  let existing_scene_time := if existing0 < needed_scene_time
    then needed_scene_time else existing0
  let u0 := if t0 < 0 then py_float_mod t0 existing_scene_time else t0
  let u1 := if t1 < 0 then py_float_mod t1 existing_scene_time else t1
  let v0 := min u0 u1
  let v1 := max u0 u1
  let moving_mobjects := animations.map (fun (a : Animation) => a.mobject)
  (potr_loop moving_mobjects v0 v1 (np_arange v0 v1 sd.frame_duration)
      (sd, animations)).map
    (fun p => (p.1, p.2.map (fun (a : Animation) => a.clean_up)))

/-- `Scene.invert_colors()`: replace every frame with `white_frame - frame`
(`uint8` arithmetic), where `white_frame` is an all-255 frame the shape of the
camera's current image. -/
def Scene.invert_colors (s : Scene) : Scene :=
  let white_frame : Frame := List.replicate s.get_frame.length 255
  { s with frames := s.frames.map (fun frame => white_frame.zipWith uint8_sub frame) }

/-- The frame rate `fps = int(1/self.frame_duration)` handed to the encoder by
`Scene.write_to_movie`. -/
def Scene.write_to_movie_fps (s : Scene) : ℤ :=
  py_int (1 / s.frame_duration)

/-- The frame rate `fps = int(1/self.frame_duration)` handed to the encoder by
`Scene.write_to_gif`. -/
def Scene.write_to_gif_fps (s : Scene) : ℤ :=
  py_int (1 / s.frame_duration)

/-! ### Concrete instances used to evaluate the development -/

/-- A concrete painting function: stamps the first mobject identifier onto
every sample of the image (and bumps blank samples), so captures are visible
in the produced frames. -/
@[reducible] def capStamp : Frame → List Mobject → Bool → Frame :=
  fun f ms _ => f.map (fun x => x + 1 + (ms.headD default).ident)

@[reducible] def cam0 : Camera :=
  { cap := capStamp, background := [0, 0], image := [0, 0], log := [] }

@[reducible] def mob1 : Mobject := .mk 1 []
@[reducible] def mob2 : Mobject := .mk 2 []
@[reducible] def mob3 : Mobject := .mk 3 [.mk 4 []]

@[reducible] def anim1 : Animation := { mobject := mob1, run_time := 1, progress_log := [], cleaned := 0 }

@[reducible] def scene0 : Scene :=
  { camera := cam0, frames := [], mobjects := [], num_animations := 0, frame_duration := 1/4 }

/-! ### Arithmetic lemmas -/

theorem py_int_of_nonneg {x : ℚ} (h : 0 ≤ x) : py_int x = ⌊x⌋ := by
  simp [py_int, h]

theorem py_int_natCast (n : ℕ) : py_int (n : ℚ) = (n : ℤ) := by
  rw [py_int_of_nonneg (by positivity)]
  exact Int.floor_natCast n

theorem py_float_mod_of_neg {t T : ℚ} (h1 : -T ≤ t) (h2 : t < 0) (hT : 0 < T) :
    py_float_mod t T = t + T := by
  have hfloor : ⌊t / T⌋ = -1 := by
    rw [Int.floor_eq_iff]
    constructor
    · push_cast
      rw [neg_le, ← neg_div]
      exact (div_le_one hT).mpr (by linarith)
    · push_cast
      have : t / T < 0 := div_neg_of_neg_of_pos h2 hT
      linarith
  rw [py_float_mod, hfloor]
  push_cast
  ring

theorem np_arange_length (start stop step : ℚ) :
    (np_arange start stop step).length = ⌈(stop - start) / step⌉.toNat := by
  unfold np_arange
  rw [List.length_map, List.length_range]

theorem np_arange_zero_length_iff {R Δ : ℚ} (hΔ : 0 < Δ) (k : ℕ) :
    k < (np_arange 0 R Δ).length ↔ (k : ℚ) * Δ < R := by
  rw [np_arange_length, sub_zero, Int.lt_toNat, Int.lt_ceil]
  push_cast
  exact lt_div_iff₀ hΔ

theorem np_arange_eq_range_map (start stop step : ℚ) :
    np_arange start stop step =
      (List.range (np_arange start stop step).length).map
        (fun k : ℕ => start + (k : ℚ) * step) := by
  rw [np_arange_length]
  rfl

theorem np_arange_nat_mul {Δ : ℚ} (hΔ : 0 < Δ) (a b : ℕ) :
    np_arange ((a : ℚ) * Δ) ((b : ℚ) * Δ) Δ =
      (List.range (b - a)).map (fun k : ℕ => ((a + k : ℕ) : ℚ) * Δ) := by
  have hdiv : ((b : ℚ) * Δ - (a : ℚ) * Δ) / Δ = (b : ℚ) - (a : ℚ) := by
    rw [div_eq_iff (ne_of_gt hΔ)]
    ring
  have hlen : ⌈((b : ℚ) * Δ - (a : ℚ) * Δ) / Δ⌉.toNat = b - a := by
    rw [hdiv]
    rw [show ((b : ℚ) - (a : ℚ)) = (((b : ℤ) - (a : ℤ) : ℤ) : ℚ) by push_cast; ring,
      Int.ceil_intCast]
    omega
  unfold np_arange
  rw [hlen]
  apply List.map_congr_left
  intro k _
  push_cast
  ring

/-! ### Characterization of the `play` loop -/

theorem play_step_fields (moving : List Mobject) (img : Frame) (t : ℚ)
    (p : Scene × List Animation) :
    (play_step moving img t p).1.camera.cap = p.1.camera.cap ∧
    (play_step moving img t p).1.camera.background = p.1.camera.background ∧
    (play_step moving img t p).1.frame_duration = p.1.frame_duration ∧
    (play_step moving img t p).1.mobjects = p.1.mobjects ∧
    (play_step moving img t p).1.frames =
      p.1.frames ++ [p.1.camera.cap img moving true] ∧
    (play_step moving img t p).1.camera.log =
      p.1.camera.log ++ [CamEvent.setImage img, CamEvent.capture moving true] ∧
    (play_step moving img t p).2 =
      p.2.map (fun a => a.update (t / a.run_time)) := by
  simp [play_step, Scene.update_frame, Camera.set_image, Camera.capture_mobjects,
    Scene.get_frame, Camera.get_image]

theorem play_loop_frames (moving : List Mobject) (img : Frame) (ts : List ℚ) :
    ∀ (st : Scene) (anims : List Animation),
      (play_loop moving img ts (st, anims)).1.frames =
        st.frames ++ List.replicate ts.length (st.camera.cap img moving true) := by
  induction ts with
  | nil => intro st anims; simp [play_loop]
  | cons t ts ih =>
    intro st anims
    rw [play_loop]
    have h := play_step_fields moving img t (st, anims)
    obtain ⟨hcap, _, _, _, hfr, _, _⟩ := h
    rcases hp : play_step moving img t (st, anims) with ⟨st2, anims2⟩
    rw [hp] at hcap hfr
    rw [ih st2 anims2, hfr, hcap]
    simp [List.replicate_succ, List.append_assoc]

theorem play_loop_log (moving : List Mobject) (img : Frame) (ts : List ℚ) :
    ∀ (st : Scene) (anims : List Animation),
      (play_loop moving img ts (st, anims)).1.camera.log =
        st.camera.log ++
          (List.replicate ts.length
            [CamEvent.setImage img, CamEvent.capture moving true]).flatten := by
  induction ts with
  | nil => intro st anims; simp [play_loop]
  | cons t ts ih =>
    intro st anims
    rw [play_loop]
    obtain ⟨_, _, _, _, _, hlog, _⟩ := play_step_fields moving img t (st, anims)
    rcases hp : play_step moving img t (st, anims) with ⟨st2, anims2⟩
    rw [hp] at hlog
    rw [ih st2 anims2, hlog]
    simp [List.replicate_succ, List.append_assoc]

theorem play_loop_anims (moving : List Mobject) (img : Frame) (ts : List ℚ) :
    ∀ (st : Scene) (anims : List Animation),
      (play_loop moving img ts (st, anims)).2 =
        anims.map (fun a =>
          { a with progress_log :=
              a.progress_log ++ ts.map (fun t => t / a.run_time) }) := by
  induction ts with
  | nil =>
    intro st anims
    simp only [play_loop, List.map_nil]
    have h : ∀ a ∈ anims,
        (fun a : Animation => { a with progress_log := a.progress_log ++ [] }) a =
          id a := by
      intro a _
      simp
    rw [List.map_congr_left h, List.map_id]
  | cons t ts ih =>
    intro st anims
    rw [play_loop]
    obtain ⟨_, _, _, _, _, _, hanims⟩ := play_step_fields moving img t (st, anims)
    rcases hp : play_step moving img t (st, anims) with ⟨st2, anims2⟩
    rw [hp] at hanims
    have h2 : anims2 = anims.map (fun a => a.update (t / a.run_time)) := hanims
    rw [ih st2 anims2, h2, List.map_map]
    apply List.map_congr_left
    intro a _
    simp [Animation.update, Function.comp]

/-! ### Characterization of the `play_over_time_range` loop -/

theorem potr_step_eq (moving : List Mobject) (t0 t1 t : ℚ) (st : Scene)
    (anims : List Animation) (j : ℕ) (hj : j < st.frames.length)
    (hidx : py_int (t / st.frame_duration) = (j : ℤ)) :
    potr_step moving t0 t1 t (st, anims) =
      some ({ st with
          camera := { st.camera with
            image := st.camera.cap st.frames[j] moving true,
            log := st.camera.log ++
              [CamEvent.setImage st.frames[j], CamEvent.capture moving true] },
          frames := st.frames.set j (st.camera.cap st.frames[j] moving true) },
        anims.map (fun a => a.update ((t - t0) / (t1 - t0)))) := by
  have hres : py_resolve st.frames.length (py_int (t / st.frame_duration)) = some j := by
    rw [hidx]
    unfold py_resolve
    rw [if_pos ⟨Int.natCast_nonneg j, by exact_mod_cast hj⟩]
    simp
  have hget : st.frames[j]? = some st.frames[j] := List.getElem?_eq_getElem hj
  unfold potr_step
  simp only [hres, hget, Scene.update_frame, Camera.set_image, Camera.capture_mobjects,
    Scene.get_frame, Camera.get_image, Option.getD_some]
  simp [List.append_assoc]

theorem potr_loop_window (moving : List Mobject) (v0 v1 : ℚ) (a b : ℕ) (ts : List ℚ) :
    ∀ (st : Scene) (anims : List Animation),
      (∀ t ∈ ts, ∃ j : ℕ, py_int (t / st.frame_duration) = (j : ℤ) ∧ a ≤ j ∧ j < b) →
      b ≤ st.frames.length →
      ∃ st' anims',
        potr_loop moving v0 v1 ts (st, anims) = some (st', anims') ∧
        st'.frames.length = st.frames.length ∧
        st'.frame_duration = st.frame_duration ∧
        (∀ i : ℕ, (i < a ∨ b ≤ i) → st'.frames[i]? = st.frames[i]?) := by
  induction ts with
  | nil =>
    intro st anims _ _
    exact ⟨st, anims, rfl, rfl, rfl, fun i _ => rfl⟩
  | cons t ts ih =>
    intro st anims hts hb
    obtain ⟨j, hidx, haj, hjb⟩ := hts t (List.mem_cons_self t ts)
    have hj : j < st.frames.length := lt_of_lt_of_le hjb hb
    rw [potr_loop, potr_step_eq moving v0 v1 t st anims j hj hidx, Option.some_bind]
    have hlen2 : (st.frames.set j (st.camera.cap st.frames[j] moving true)).length =
        st.frames.length := List.length_set st.frames j _
    obtain ⟨st', anims', heq, hlen, hdur, hout⟩ :=
      ih ({ st with
              camera := { st.camera with
                image := st.camera.cap st.frames[j] moving true,
                log := st.camera.log ++
                  [CamEvent.setImage st.frames[j], CamEvent.capture moving true] },
              frames := st.frames.set j (st.camera.cap st.frames[j] moving true) })
        (anims.map (fun a => a.update ((t - v0) / (v1 - v0))))
        (by
          intro t' ht'
          exact hts t' (List.mem_cons_of_mem t ht'))
        (le_trans hb (le_of_eq hlen2.symm))
    refine ⟨st', anims', heq, ?_, hdur, ?_⟩
    · rw [hlen]
      exact hlen2
    · intro i hi
      rw [hout i hi]
      exact List.getElem?_set_ne (by omega)

/-! ### Helper lemmas for `invert_colors` and `add`/`remove` -/

theorem zipWith_replicate_uint8 (f : List ℕ) :
    ∀ n : ℕ, f.length = n →
      (List.replicate n (255 : ℕ)).zipWith uint8_sub f =
        f.map (fun x => uint8_sub 255 x) := by
  induction f with
  | nil =>
    intro n h
    subst h
    rfl
  | cons x xs ih =>
    intro n h
    subst h
    simp only [List.length_cons, List.replicate_succ, List.zipWith_cons_cons, List.map_cons]
    rw [ih xs.length rfl]

theorem uint8_sub_255 {x : ℕ} (h : x < 256) : uint8_sub 255 x = 255 - x := by
  unfold uint8_sub
  omega

theorem invert_colors_frames (s : Scene)
    (hlen : ∀ f ∈ s.frames, List.length f = List.length s.get_frame)
    (hval : ∀ f ∈ s.frames, ∀ x ∈ f, x < 256) :
    s.invert_colors.frames = s.frames.map (fun f => f.map (fun x => 255 - x)) := by
  simp only [Scene.invert_colors]
  apply List.map_congr_left
  intro f hf
  rw [zipWith_replicate_uint8 f (List.length s.get_frame) (hlen f hf)]
  apply List.map_congr_left
  intro x hx
  exact uint8_sub_255 (hval f hf x hx)

theorem Scene.eq_of_fields {s t : Scene} (h1 : s.camera = t.camera)
    (h2 : s.frames = t.frames) (h3 : s.mobjects = t.mobjects)
    (h4 : s.num_animations = t.num_animations)
    (h5 : s.frame_duration = t.frame_duration) : s = t := by
  cases s
  cases t
  dsimp only at h1 h2 h3 h4 h5
  subst h1
  subst h2
  subst h3
  subst h4
  subst h5
  rfl

/-- C7: `invert_colors` replaces every frame of the FrameBuffer with its
photometric negative `255 − f` per channel sample (as a new list of frames,
the value semantics of the embedding capturing the required freedom from
aliasing), and applying `invert_colors` twice restores the whole Scene
exactly. -/
theorem invert_colors_involution (s : Scene)
    (hlen : ∀ f ∈ s.frames, List.length f = List.length s.get_frame)
    (hval : ∀ f ∈ s.frames, ∀ x ∈ f, x < 256) :
    s.invert_colors.frames = s.frames.map (fun f => f.map (fun x => 255 - x)) ∧
    s.invert_colors.invert_colors = s := by
  have h1 := invert_colors_frames s hlen hval
  refine ⟨h1, ?_⟩
  have hget : s.invert_colors.get_frame = s.get_frame := rfl
  have hlen2 : ∀ f ∈ s.invert_colors.frames,
      List.length f = List.length s.invert_colors.get_frame := by
    rw [h1, hget]
    intro f hf
    obtain ⟨g, hg, rfl⟩ := List.mem_map.mp hf
    rw [List.length_map]
    exact hlen g hg
  have hval2 : ∀ f ∈ s.invert_colors.frames, ∀ x ∈ f, x < 256 := by
    rw [h1]
    intro f hf x hx
    obtain ⟨g, hg, rfl⟩ := List.mem_map.mp hf
    obtain ⟨y, hy, rfl⟩ := List.mem_map.mp hx
    omega
  have h2 := invert_colors_frames s.invert_colors hlen2 hval2
  rw [h1] at h2
  have h3 : s.invert_colors.invert_colors.frames = s.frames := by
    rw [h2, List.map_map]
    have houter : ∀ f ∈ s.frames,
        ((fun f : Frame => f.map fun x => 255 - x) ∘
          fun f : Frame => f.map fun x => 255 - x) f = id f := by
      intro f hf
      simp only [Function.comp, List.map_map, id]
      have hinner : ∀ x ∈ f, ((fun x : ℕ => 255 - x) ∘ fun x : ℕ => 255 - x) x = id x := by
        intro x hx
        have hx2 := hval f hf x hx
        simp only [Function.comp, id]
        omega
      rw [List.map_congr_left hinner, List.map_id]
    rw [List.map_congr_left houter, List.map_id]
  exact Scene.eq_of_fields rfl h3 rfl rfl rfl

theorem invert_colors_involution_witness :
    (∀ f ∈ ({ scene0 with frames := [[10, 20], [0, 255]] } : Scene).frames,
      List.length f =
        List.length ({ scene0 with frames := [[10, 20], [0, 255]] } : Scene).get_frame) ∧
    (∀ f ∈ ({ scene0 with frames := [[10, 20], [0, 255]] } : Scene).frames,
      ∀ x ∈ f, x < 256) ∧
    (({ scene0 with frames := [[10, 20], [0, 255]] } : Scene).invert_colors.frames =
        ({ scene0 with frames := [[10, 20], [0, 255]] } : Scene).frames.map
          (fun f => f.map (fun x => 255 - x)) ∧
      ({ scene0 with frames := [[10, 20], [0, 255]] } : Scene).invert_colors.invert_colors =
        { scene0 with frames := [[10, 20], [0, 255]] }) :=
  ⟨by decide, by decide,
    invert_colors_involution { scene0 with frames := [[10, 20], [0, 255]] }
      (by decide) (by decide)⟩

/-! ### C8/C9: SceneObjectSet bookkeeping -/

theorem add_filter_readd (l : List Mobject) (m : Mobject) (hnd : l.Nodup) (hm : m ∈ l) :
    (add_filter l [m]).length = l.length ∧
    (add_filter l [m]).Nodup ∧
    (add_filter l [m]).getLast? = some m ∧
    (∀ x, x ∈ add_filter l [m] ↔ x ∈ l) := by
  have hfil : l.filter (fun x => ¬ x ∈ [m]) = l.filter (fun x => x != m) := by
    apply List.filter_congr
    intro x _
    simp only [List.mem_singleton, bne, decide_not]
    rfl
  have herase : l.filter (fun x => x != m) = l.erase m := (hnd.erase_eq_filter m).symm
  have hlpos : 0 < l.length := List.length_pos.mpr (List.ne_nil_of_mem hm)
  unfold add_filter
  rw [hfil, herase]
  refine ⟨?_, ?_, ?_, ?_⟩
  · rw [List.length_append, List.length_erase_of_mem hm]
    simp
    omega
  · apply List.Nodup.append (hnd.erase m) (List.nodup_singleton m)
    intro x hx hxm
    rw [List.mem_singleton] at hxm
    subst hxm
    exact (hnd.mem_erase_iff.mp hx).1 rfl
  · exact List.getLast?_concat _
  · intro x
    rw [List.mem_append, List.mem_singleton, hnd.mem_erase_iff]
    constructor
    · rintro (⟨_, hx⟩ | rfl)
      · exact hx
      · exact hm
    · intro hx
      by_cases hxm : x = m
      · exact Or.inr hxm
      · exact Or.inl ⟨hxm, hx⟩

/-- C8: re-`add`ing a mobject already present in a duplicate-free
SceneObjectSet succeeds, leaves the length unchanged, preserves the
no-duplicates invariant, moves the mobject to the top of the paint order (the
last position, painted in the foreground), and leaves membership unchanged. -/
theorem add_readd (s : Scene) (m : Mobject) (hnd : s.mobjects.Nodup)
    (hm : m ∈ s.mobjects) :
    ∃ s2, s.add [PyObj.mob m] = Except.ok s2 ∧
      s2.mobjects.length = s.mobjects.length ∧
      s2.mobjects.Nodup ∧
      s2.mobjects.getLast? = some m ∧
      (∀ x : Mobject, x ∈ s2.mobjects ↔ x ∈ s.mobjects) := by
  have hadd : s.add [PyObj.mob m] =
      Except.ok { s with mobjects := add_filter s.mobjects [m] } := by
    unfold Scene.add
    rw [if_neg (by simp [all_elements_are_instances])]
    rfl
  refine ⟨_, hadd, ?_⟩
  exact add_filter_readd s.mobjects m hnd hm

theorem add_readd_witness :
    ({ scene0 with mobjects := [mob1, mob2] } : Scene).mobjects.Nodup ∧
    mob1 ∈ ({ scene0 with mobjects := [mob1, mob2] } : Scene).mobjects ∧
    ∃ s2, ({ scene0 with mobjects := [mob1, mob2] } : Scene).add [PyObj.mob mob1] =
        Except.ok s2 ∧
      s2.mobjects.length =
        ({ scene0 with mobjects := [mob1, mob2] } : Scene).mobjects.length ∧
      s2.mobjects.Nodup ∧
      s2.mobjects.getLast? = some mob1 ∧
      (∀ x : Mobject, x ∈ s2.mobjects ↔
        x ∈ ({ scene0 with mobjects := [mob1, mob2] } : Scene).mobjects) :=
  ⟨by decide, by decide,
    add_readd { scene0 with mobjects := [mob1, mob2] } mob1 (by decide) (by decide)⟩

/-- C9: `add` and `remove` called with an argument that is not a drawable
raise immediately; in the embedding the whole call returns an error and no
mutated Scene is produced, so the SceneObjectSet is left unchanged
(all-or-nothing per call). -/
theorem add_remove_nonmobject (s : Scene) (objs : List PyObj) (t : ℕ)
    (h : PyObj.other t ∈ objs) :
    s.add objs = Except.error "Adding something which is not a mobject" ∧
    s.remove objs = Except.error "Removing something which is not a mobject" := by
  have hall : ¬ all_elements_are_instances objs = true := by
    unfold all_elements_are_instances
    rw [List.all_eq_true]
    intro hforall
    exact absurd (hforall (PyObj.other t) h) (by simp)
  constructor
  · unfold Scene.add
    rw [if_pos hall]
  · unfold Scene.remove
    rw [if_pos hall]

theorem add_remove_nonmobject_witness :
    PyObj.other 0 ∈ [PyObj.mob mob1, PyObj.other 0] ∧
    (scene0.add [PyObj.mob mob1, PyObj.other 0] =
        Except.error "Adding something which is not a mobject" ∧
      scene0.remove [PyObj.mob mob1, PyObj.other 0] =
        Except.error "Removing something which is not a mobject") :=
  ⟨by decide, add_remove_nonmobject scene0 [PyObj.mob mob1, PyObj.other 0] 0 (by decide)⟩

/-! ### C1: play with no animations -/

/-- C1: `Scene.play` with an empty animation list executes
`raise Warning("Called Scene.play with no animations")`.  In Python this is an
ordinary exception that propagates to the caller (the `return` statement after
the `raise` is unreachable, and the imported `warnings` module is never used),
so the call is not a reported-warning no-op: the embedding returns an error. -/
theorem play_empty_raises (s : Scene) (kw : Option ℚ) :
    s.play [] kw = Except.error "Called Scene.play with no animations" := rfl

/-! ### C6: export frame rate -/

/-- C6 counterexample: for `frame_duration = 3/5` the code's
`fps = int(1/frame_duration)` is 1 on both export paths, while the nearest
integer to `1/frame_duration = 5/3` is 2 — the exported frame rate is not
`round(1/frame_duration)`. -/
theorem write_fps_ne_round :
    Scene.write_to_movie_fps { scene0 with frame_duration := 3/5 } = 1 ∧
    Scene.write_to_gif_fps { scene0 with frame_duration := 3/5 } = 1 ∧
    round (1 / ({ scene0 with frame_duration := 3/5 } : Scene).frame_duration) = 2 := by
  refine ⟨by norm_num [Scene.write_to_movie_fps, py_int],
    by norm_num [Scene.write_to_gif_fps, py_int], ?_⟩
  rw [round_eq]
  norm_num

/-- C6 (amended): for every positive `frame_duration` the frame rate passed to
the external encoder by both export paths equals `⌊1/frame_duration⌋`, the
truncation of `1/frame_duration` toward zero (`int()`), not its rounding to
the nearest integer. -/
theorem write_fps_eq_floor (s : Scene) (h : 0 < s.frame_duration) :
    s.write_to_movie_fps = ⌊1 / s.frame_duration⌋ ∧
    s.write_to_gif_fps = ⌊1 / s.frame_duration⌋ := by
  have hx : (0 : ℚ) ≤ 1 / s.frame_duration := by positivity
  exact ⟨py_int_of_nonneg hx, py_int_of_nonneg hx⟩

theorem write_fps_eq_floor_witness :
    0 < scene0.frame_duration ∧
    scene0.write_to_movie_fps = ⌊1 / scene0.frame_duration⌋ ∧
    scene0.write_to_gif_fps = ⌊1 / scene0.frame_duration⌋ :=
  ⟨by norm_num [scene0], (write_fps_eq_floor scene0 (by norm_num [scene0])).1,
    (write_fps_eq_floor scene0 (by norm_num [scene0])).2⟩

/-! ### C2/C4: the `play` path -/

theorem play_unfold (s : Scene) (a0 : Animation) (rest : List Animation) (kw : Option ℚ) :
    s.play (a0 :: rest) kw =
      (let s1 : Scene := { s with
          num_animations := s.num_animations + 1,
          mobjects := add_filter s.mobjects
            ((a0 :: rest).map (fun a : Animation => a.mobject)) }
       let anims := Scene.align_run_times (a0 :: rest) kw
       let pair := s1.separate_moving_and_static_mobjects anims
       let s2 := s1.update_frame (some pair.2) none false
       let out := play_loop pair.1 s2.get_frame (s2.get_time_progression anims) (s2, anims)
       Except.ok (out.1, out.2.map (fun a : Animation => a.clean_up))) := by
  unfold Scene.play
  rw [if_neg (by simp)]

/-- C2: for a `play` call aligned to run time `R > 0` with step
`Δ = frame_duration > 0`, the number of frames appended to the FrameBuffer is
the length of `numpy.arange(0, R, Δ)`, which is exactly the number of grid
points `k·Δ` strictly below `R`; the sampled times are `0, Δ, 2Δ, …`, and
every animation's `update` receives exactly the progress values `t / R` for
those times `t`. -/
theorem play_frame_count (s : Scene) (a0 : Animation) (rest : List Animation) (R : ℚ)
    (hR : 0 < R) (hΔ : 0 < s.frame_duration) :
    ∃ out : Scene × List Animation,
      s.play (a0 :: rest) (some R) = Except.ok out ∧
      out.1.frames.length = s.frames.length + (np_arange 0 R s.frame_duration).length ∧
      (∀ k : ℕ, k < (np_arange 0 R s.frame_duration).length ↔
        (k : ℚ) * s.frame_duration < R) ∧
      np_arange 0 R s.frame_duration =
        (List.range (np_arange 0 R s.frame_duration).length).map
          (fun k : ℕ => (k : ℚ) * s.frame_duration) ∧
      out.2 = (a0 :: rest).map (fun a =>
        { a with
          run_time := R,
          cleaned := a.cleaned + 1,
          progress_log := a.progress_log ++
            (np_arange 0 R s.frame_duration).map (fun t => t / R) }) := by
  rw [play_unfold]
  refine ⟨_, rfl, ?_, fun k => np_arange_zero_length_iff hΔ k, ?_, ?_⟩
  · rw [play_loop_frames]
    simp [List.length_append, Scene.get_time_progression, Scene.align_run_times,
      Scene.update_frame]
  · conv_lhs => rw [np_arange_eq_range_map]
    apply List.map_congr_left
    intro k _
    rw [zero_add]
  · rw [play_loop_anims]
    rw [show Scene.align_run_times (a0 :: rest) (some R) =
      (a0 :: rest).map (fun a : Animation => { a with run_time := R }) from rfl]
    rw [List.map_map, List.map_map]
    apply List.map_congr_left
    intro a _
    simp [Function.comp, Animation.clean_up, Scene.get_time_progression,
      Scene.align_run_times, Scene.update_frame]

theorem play_frame_count_witness :
    0 < (1 : ℚ) ∧ 0 < scene0.frame_duration ∧
    ∃ out : Scene × List Animation,
      scene0.play [anim1] (some 1) = Except.ok out ∧
      out.1.frames.length =
        scene0.frames.length + (np_arange 0 1 scene0.frame_duration).length ∧
      (∀ k : ℕ, k < (np_arange 0 1 scene0.frame_duration).length ↔
        (k : ℚ) * scene0.frame_duration < 1) ∧
      np_arange 0 1 scene0.frame_duration =
        (List.range (np_arange 0 1 scene0.frame_duration).length).map
          (fun k : ℕ => (k : ℚ) * scene0.frame_duration) ∧
      out.2 = [anim1].map (fun a =>
        { a with
          run_time := 1,
          cleaned := a.cleaned + 1,
          progress_log := a.progress_log ++
            (np_arange 0 1 scene0.frame_duration).map (fun t => t / 1) }) :=
  ⟨by norm_num, by norm_num [scene0],
    play_frame_count scene0 anim1 [] 1 (by norm_num) (by norm_num [scene0])⟩

theorem count_capture_flatten_replicate (img : Frame) (moving ms : List Mobject) (n : ℕ) :
    ((List.replicate n [CamEvent.setImage img, CamEvent.capture moving true]).flatten).count
      (CamEvent.capture ms false) = 0 := by
  induction n with
  | zero => rfl
  | succ n ih =>
    rw [List.replicate_succ, List.flatten_cons, List.count_append, ih]
    simp [List.count_cons]

/-- C4: within one `play` call the static set produced by
`separate_moving_and_static_mobjects` is captured exactly once, by the single
`capture` camera operation performed before the step loop; each of the
`len(np.arange(0, run_time, frame_duration))` steps then merely re-seeds the
camera with the cached static background frame (the result of that single
static capture) and captures the moving set on top of it — the camera log
shows exactly one capture of the static set. -/
theorem play_static_once (s : Scene) (a0 : Animation) (rest : List Animation)
    (kw : Option ℚ) :
    ∃ (out : Scene × List Animation) (moving static_mobjects : List Mobject),
      s.play (a0 :: rest) kw = Except.ok out ∧
      ({ s with
          num_animations := s.num_animations + 1,
          mobjects := add_filter s.mobjects
            ((a0 :: rest).map (fun a : Animation => a.mobject)) } :
        Scene).separate_moving_and_static_mobjects
          (Scene.align_run_times (a0 :: rest) kw) = (moving, static_mobjects) ∧
      out.1.camera.log =
        s.camera.log ++
          [CamEvent.reset, CamEvent.capture static_mobjects false] ++
          (List.replicate
            (np_arange 0 (kw.getD a0.run_time) s.frame_duration).length
            [CamEvent.setImage (s.camera.cap s.camera.background static_mobjects false),
             CamEvent.capture moving true]).flatten ∧
      (out.1.camera.log.drop s.camera.log.length).count
          (CamEvent.capture static_mobjects false) = 1 := by
  rw [play_unfold]
  refine ⟨_, _, _, rfl, Prod.mk.eta.symm, ?_, ?_⟩
  · rw [play_loop_log]
    simp only [Scene.update_frame, Camera.reset, Camera.capture_mobjects,
      Scene.get_frame, Camera.get_image, Option.getD_some, Scene.get_time_progression,
      Scene.align_run_times, List.map_cons, List.headD_cons, List.append_assoc]
    rfl
  · rw [play_loop_log]
    simp only [Scene.update_frame, Camera.reset, Camera.capture_mobjects,
      Scene.get_frame, Camera.get_image, Option.getD_some, List.append_assoc]
    rw [List.drop_left]
    simp [List.count_cons, count_capture_flatten_replicate]

/-! ### C3/C5/C10: the `play_over_time_range` path -/

theorem potr_unfold_no_dither (s : Scene) (t0 t1 : ℚ) (anims : List Animation)
    (h : ¬ ((s.frames.length : ℚ) * s.frame_duration < max |t0| |t1|)) :
    s.play_over_time_range t0 t1 anims =
      (let u0 := if t0 < 0
        then py_float_mod t0 ((s.frames.length : ℚ) * s.frame_duration) else t0
       let u1 := if t1 < 0
        then py_float_mod t1 ((s.frames.length : ℚ) * s.frame_duration) else t1
       (potr_loop (anims.map (fun a : Animation => a.mobject)) (min u0 u1) (max u0 u1)
          (np_arange (min u0 u1) (max u0 u1) s.frame_duration) (s, anims)).map
        (fun p => (p.1, p.2.map (fun a : Animation => a.clean_up)))) := by
  simp only [Scene.play_over_time_range]
  rw [if_neg h, if_neg h]

/-- C3: a `play_over_time_range` call with `0 ≤ t0 = a·Δ ≤ t1 = b·Δ` on a
FrameBuffer already covering the window (`b ≤ len(frames)`) succeeds, keeps
the buffer length, and leaves every frame with index outside `[a, b)` exactly
equal to its pre-call value: only indices inside the window are overwritten. -/
theorem potr_preserves_outside (s : Scene) (anims : List Animation) (a b : ℕ)
    (hΔ : 0 < s.frame_duration) (hab : a ≤ b) (hb : b ≤ s.frames.length) :
    ∃ out : Scene × List Animation,
      s.play_over_time_range ((a : ℚ) * s.frame_duration) ((b : ℚ) * s.frame_duration)
        anims = some out ∧
      out.1.frames.length = s.frames.length ∧
      (∀ i : ℕ, i < a ∨ b ≤ i → out.1.frames[i]? = s.frames[i]?) := by
  have ha0 : (0 : ℚ) ≤ (a : ℚ) * s.frame_duration := by positivity
  have hb0 : (0 : ℚ) ≤ (b : ℚ) * s.frame_duration := by positivity
  have habQ : (a : ℚ) * s.frame_duration ≤ (b : ℚ) * s.frame_duration := by
    apply mul_le_mul_of_nonneg_right _ hΔ.le
    exact_mod_cast hab
  have hbl : (b : ℚ) * s.frame_duration ≤ (s.frames.length : ℚ) * s.frame_duration := by
    apply mul_le_mul_of_nonneg_right _ hΔ.le
    exact_mod_cast hb
  have hnod : ¬ ((s.frames.length : ℚ) * s.frame_duration <
      max |(a : ℚ) * s.frame_duration| |(b : ℚ) * s.frame_duration|) := by
    rw [abs_of_nonneg ha0, abs_of_nonneg hb0, max_eq_right habQ]
    exact not_lt.mpr hbl
  rw [potr_unfold_no_dither s _ _ anims hnod]
  rw [if_neg (not_lt.mpr ha0), if_neg (not_lt.mpr hb0)]
  dsimp only
  rw [min_eq_left habQ, max_eq_right habQ, np_arange_nat_mul hΔ a b]
  have hts : ∀ t ∈ (List.range (b - a)).map
      (fun k : ℕ => ((a + k : ℕ) : ℚ) * s.frame_duration),
      ∃ j : ℕ, py_int (t / s.frame_duration) = (j : ℤ) ∧ a ≤ j ∧ j < b := by
    intro t ht
    obtain ⟨k, hk, rfl⟩ := List.mem_map.mp ht
    rw [List.mem_range] at hk
    refine ⟨a + k, ?_, Nat.le_add_right a k, by omega⟩
    rw [mul_div_cancel_right₀ _ (ne_of_gt hΔ)]
    exact py_int_natCast (a + k)
  obtain ⟨st', anims', heq, hlen, hdur, hout⟩ :=
    potr_loop_window (anims.map (fun x : Animation => x.mobject))
      ((a : ℚ) * s.frame_duration) ((b : ℚ) * s.frame_duration) a b
      ((List.range (b - a)).map (fun k : ℕ => ((a + k : ℕ) : ℚ) * s.frame_duration))
      s anims hts hb
  rw [heq, Option.map_some']
  exact ⟨_, rfl, hlen, hout⟩

theorem potr_preserves_outside_witness :
    0 < ({ scene0 with
        frames := [[0, 0], [1, 1], [2, 2], [3, 3], [4, 4],
          [5, 5], [6, 6], [7, 7], [8, 8], [9, 9]] } : Scene).frame_duration ∧
    2 ≤ 5 ∧
    5 ≤ ({ scene0 with
        frames := [[0, 0], [1, 1], [2, 2], [3, 3], [4, 4],
          [5, 5], [6, 6], [7, 7], [8, 8], [9, 9]] } : Scene).frames.length ∧
    ∃ out : Scene × List Animation,
      ({ scene0 with
          frames := [[0, 0], [1, 1], [2, 2], [3, 3], [4, 4],
            [5, 5], [6, 6], [7, 7], [8, 8], [9, 9]] } : Scene).play_over_time_range
        ((2 : ℕ) * ({ scene0 with
            frames := [[0, 0], [1, 1], [2, 2], [3, 3], [4, 4],
              [5, 5], [6, 6], [7, 7], [8, 8], [9, 9]] } : Scene).frame_duration)
        ((5 : ℕ) * ({ scene0 with
            frames := [[0, 0], [1, 1], [2, 2], [3, 3], [4, 4],
              [5, 5], [6, 6], [7, 7], [8, 8], [9, 9]] } : Scene).frame_duration)
        [anim1] = some out ∧
      out.1.frames.length = ({ scene0 with
          frames := [[0, 0], [1, 1], [2, 2], [3, 3], [4, 4],
            [5, 5], [6, 6], [7, 7], [8, 8], [9, 9]] } : Scene).frames.length ∧
      (∀ i : ℕ, i < 2 ∨ 5 ≤ i → out.1.frames[i]? = ({ scene0 with
          frames := [[0, 0], [1, 1], [2, 2], [3, 3], [4, 4],
            [5, 5], [6, 6], [7, 7], [8, 8], [9, 9]] } : Scene).frames[i]?) :=
  ⟨by norm_num [scene0], by norm_num,
    by norm_num,
    potr_preserves_outside
      { scene0 with
        frames := [[0, 0], [1, 1], [2, 2], [3, 3], [4, 4],
          [5, 5], [6, 6], [7, 7], [8, 8], [9, 9]] }
      [anim1] 2 5 (by norm_num [scene0]) (by norm_num) (by norm_num)⟩

theorem potr_unfold_dither (s : Scene) (t0 t1 : ℚ) (anims : List Animation)
    (h : (s.frames.length : ℚ) * s.frame_duration < max |t0| |t1|) :
    s.play_over_time_range t0 t1 anims =
      (let sd := s.dither (max |t0| |t1| - (s.frames.length : ℚ) * s.frame_duration)
       let u0 := if t0 < 0 then py_float_mod t0 (max |t0| |t1|) else t0
       let u1 := if t1 < 0 then py_float_mod t1 (max |t0| |t1|) else t1
       (potr_loop (anims.map (fun a : Animation => a.mobject)) (min u0 u1) (max u0 u1)
          (np_arange (min u0 u1) (max u0 u1) sd.frame_duration) (sd, anims)).map
        (fun p => (p.1, p.2.map (fun a : Animation => a.clean_up)))) := by
  simp only [Scene.play_over_time_range]
  rw [if_pos h, if_pos h]

/-- C10: `play_over_time_range(a·Δ, b·Δ, …)` with non-negative multiples of
`Δ = frame_duration` never reads or writes out of the buffer's bounds: after
the dither-based extension (when the window exceeds the current duration), the
call succeeds and every loop index `int(t/Δ)` for `t` in the resolved window
is non-negative and strictly below the buffer's length. -/
theorem potr_no_oob (s : Scene) (anims : List Animation) (a b : ℕ)
    (hΔ : 0 < s.frame_duration) :
    ∃ out : Scene × List Animation,
      s.play_over_time_range ((a : ℚ) * s.frame_duration) ((b : ℚ) * s.frame_duration)
        anims = some out ∧
      ∀ t ∈ np_arange (((min a b : ℕ) : ℚ) * s.frame_duration)
          (((max a b : ℕ) : ℚ) * s.frame_duration) s.frame_duration,
        0 ≤ py_int (t / s.frame_duration) ∧
        py_int (t / s.frame_duration) < (out.1.frames.length : ℤ) := by
  have ha0 : (0 : ℚ) ≤ (a : ℚ) * s.frame_duration := by positivity
  have hb0 : (0 : ℚ) ≤ (b : ℚ) * s.frame_duration := by positivity
  have hmaxQ : max |(a : ℚ) * s.frame_duration| |(b : ℚ) * s.frame_duration| =
      ((max a b : ℕ) : ℚ) * s.frame_duration := by
    rw [abs_of_nonneg ha0, abs_of_nonneg hb0, Nat.cast_max]
    exact (max_mul_of_nonneg _ _ hΔ.le).symm
  have hminQ : min ((a : ℚ) * s.frame_duration) ((b : ℚ) * s.frame_duration) =
      ((min a b : ℕ) : ℚ) * s.frame_duration := by
    rw [Nat.cast_min]
    exact (min_mul_of_nonneg _ _ hΔ.le).symm
  have hmaxQ2 : max ((a : ℚ) * s.frame_duration) ((b : ℚ) * s.frame_duration) =
      ((max a b : ℕ) : ℚ) * s.frame_duration := by
    rw [Nat.cast_max]
    exact (max_mul_of_nonneg _ _ hΔ.le).symm
  have hts : ∀ t ∈ (List.range (max a b - min a b)).map
      (fun k : ℕ => ((min a b + k : ℕ) : ℚ) * s.frame_duration),
      ∃ j : ℕ, py_int (t / s.frame_duration) = (j : ℤ) ∧ min a b ≤ j ∧ j < max a b := by
    intro t ht
    obtain ⟨k, hk, rfl⟩ := List.mem_map.mp ht
    rw [List.mem_range] at hk
    refine ⟨min a b + k, ?_, Nat.le_add_right _ k, by omega⟩
    rw [mul_div_cancel_right₀ _ (ne_of_gt hΔ)]
    exact py_int_natCast (min a b + k)
  have hbound : ∀ (st' : Scene), max a b ≤ st'.frames.length →
      ∀ t ∈ np_arange (((min a b : ℕ) : ℚ) * s.frame_duration)
          (((max a b : ℕ) : ℚ) * s.frame_duration) s.frame_duration,
        0 ≤ py_int (t / s.frame_duration) ∧
        py_int (t / s.frame_duration) < (st'.frames.length : ℤ) := by
    intro st' hst t ht
    rw [np_arange_nat_mul hΔ (min a b) (max a b)] at ht
    obtain ⟨k, hk, rfl⟩ := List.mem_map.mp ht
    rw [List.mem_range] at hk
    rw [mul_div_cancel_right₀ _ (ne_of_gt hΔ), py_int_natCast]
    refine ⟨Int.natCast_nonneg _, ?_⟩
    have hlt : min a b + k < max a b := by omega
    exact_mod_cast lt_of_lt_of_le hlt hst
  by_cases hcase : s.frames.length < max a b
  · have hd : (s.frames.length : ℚ) * s.frame_duration <
        max |(a : ℚ) * s.frame_duration| |(b : ℚ) * s.frame_duration| := by
      rw [hmaxQ]
      apply mul_lt_mul_of_pos_right _ hΔ
      exact_mod_cast hcase
    rw [potr_unfold_dither s _ _ anims hd]
    rw [if_neg (not_lt.mpr ha0), if_neg (not_lt.mpr hb0)]
    dsimp only
    rw [hminQ, hmaxQ2]
    have hsdlen : (s.dither (max |(a : ℚ) * s.frame_duration|
        |(b : ℚ) * s.frame_duration| -
          (s.frames.length : ℚ) * s.frame_duration)).frames.length = max a b := by
      simp only [Scene.dither, Scene.update_frame, Camera.reset, Camera.capture_mobjects,
        Scene.get_frame, Camera.get_image]
      rw [List.length_append, List.length_replicate, hmaxQ]
      have hdiv : (((max a b : ℕ) : ℚ) * s.frame_duration -
          (s.frames.length : ℚ) * s.frame_duration) / s.frame_duration =
          ((max a b : ℕ) : ℚ) - (s.frames.length : ℚ) := by
        rw [div_eq_iff (ne_of_gt hΔ)]
        ring
      rw [hdiv, show ((max a b : ℕ) : ℚ) - (s.frames.length : ℚ) =
        ((max a b - s.frames.length : ℕ) : ℚ) from by
          rw [Nat.cast_sub (le_of_lt hcase)]]
      rw [py_int_natCast, Int.toNat_natCast]
      omega
    have hdfd : ∀ d : ℚ, (s.dither d).frame_duration = s.frame_duration := fun d => rfl
    rw [hdfd, np_arange_nat_mul hΔ (min a b) (max a b)]
    obtain ⟨st', anims', heq, hlen, hdur, hout⟩ :=
      potr_loop_window (anims.map (fun x : Animation => x.mobject))
        (((min a b : ℕ) : ℚ) * s.frame_duration)
        (((max a b : ℕ) : ℚ) * s.frame_duration) (min a b) (max a b)
        ((List.range (max a b - min a b)).map
          (fun k : ℕ => ((min a b + k : ℕ) : ℚ) * s.frame_duration))
        (s.dither (max |(a : ℚ) * s.frame_duration| |(b : ℚ) * s.frame_duration| -
          (s.frames.length : ℚ) * s.frame_duration)) anims hts (le_of_eq hsdlen.symm)
    rw [heq, Option.map_some']
    refine ⟨_, rfl, ?_⟩
    have hstlen : max a b ≤ st'.frames.length := by
      rw [hlen, hsdlen]
    have hb2 := hbound st' hstlen
    rw [np_arange_nat_mul hΔ (min a b) (max a b)] at hb2
    exact hb2
  · have hnod : ¬ ((s.frames.length : ℚ) * s.frame_duration <
        max |(a : ℚ) * s.frame_duration| |(b : ℚ) * s.frame_duration|) := by
      rw [hmaxQ]
      apply not_lt.mpr
      apply mul_le_mul_of_nonneg_right _ hΔ.le
      exact_mod_cast not_lt.mp hcase
    rw [potr_unfold_no_dither s _ _ anims hnod]
    rw [if_neg (not_lt.mpr ha0), if_neg (not_lt.mpr hb0)]
    dsimp only
    rw [hminQ, hmaxQ2, np_arange_nat_mul hΔ (min a b) (max a b)]
    obtain ⟨st', anims', heq, hlen, hdur, hout⟩ :=
      potr_loop_window (anims.map (fun x : Animation => x.mobject))
        (((min a b : ℕ) : ℚ) * s.frame_duration)
        (((max a b : ℕ) : ℚ) * s.frame_duration) (min a b) (max a b)
        ((List.range (max a b - min a b)).map
          (fun k : ℕ => ((min a b + k : ℕ) : ℚ) * s.frame_duration))
        s anims hts (not_lt.mp hcase)
    rw [heq, Option.map_some']
    refine ⟨_, rfl, ?_⟩
    have hstlen : max a b ≤ st'.frames.length := by
      rw [hlen]
      exact not_lt.mp hcase
    have hb2 := hbound st' hstlen
    rw [np_arange_nat_mul hΔ (min a b) (max a b)] at hb2
    exact hb2

theorem potr_no_oob_witness :
    0 < ({ scene0 with
        frames := [[0, 0], [1, 1], [2, 2], [3, 3]] } : Scene).frame_duration ∧
    ∃ out : Scene × List Animation,
      ({ scene0 with
          frames := [[0, 0], [1, 1], [2, 2], [3, 3]] } : Scene).play_over_time_range
        ((3 : ℕ) * ({ scene0 with
            frames := [[0, 0], [1, 1], [2, 2], [3, 3]] } : Scene).frame_duration)
        ((6 : ℕ) * ({ scene0 with
            frames := [[0, 0], [1, 1], [2, 2], [3, 3]] } : Scene).frame_duration)
        [anim1] = some out ∧
      ∀ t ∈ np_arange
          (((min 3 6 : ℕ) : ℚ) * ({ scene0 with
              frames := [[0, 0], [1, 1], [2, 2], [3, 3]] } : Scene).frame_duration)
          (((max 3 6 : ℕ) : ℚ) * ({ scene0 with
              frames := [[0, 0], [1, 1], [2, 2], [3, 3]] } : Scene).frame_duration)
          ({ scene0 with
              frames := [[0, 0], [1, 1], [2, 2], [3, 3]] } : Scene).frame_duration,
        0 ≤ py_int (t / ({ scene0 with
            frames := [[0, 0], [1, 1], [2, 2], [3, 3]] } : Scene).frame_duration) ∧
        py_int (t / ({ scene0 with
            frames := [[0, 0], [1, 1], [2, 2], [3, 3]] } : Scene).frame_duration) <
          (out.1.frames.length : ℤ) :=
  ⟨by norm_num [scene0],
    potr_no_oob { scene0 with frames := [[0, 0], [1, 1], [2, 2], [3, 3]] }
      [anim1] 3 6 (by norm_num [scene0])⟩

/-- C5: on a FrameBuffer covering duration `T = len(frames)·Δ ≥ 2Δ`,
`play_over_time_range(-2Δ, -1Δ, …)` is the very same computation as
`play_over_time_range(T-2Δ, T-1Δ, …)`: each negative bound `t` is replaced by
`t mod T` (Python float modulo), the bounds are then ordered, and the two
calls resolve to the identical window, loop, frame reads and overwrites, and
result. -/
theorem potr_negative_wraparound (s : Scene) (anims : List Animation)
    (hΔ : 0 < s.frame_duration) (hlen : 2 ≤ s.frames.length) :
    s.play_over_time_range (-2 * s.frame_duration) (-1 * s.frame_duration) anims =
      s.play_over_time_range
        ((s.frames.length : ℚ) * s.frame_duration - 2 * s.frame_duration)
        ((s.frames.length : ℚ) * s.frame_duration - 1 * s.frame_duration) anims := by
  have hT2 : 2 * s.frame_duration ≤ (s.frames.length : ℚ) * s.frame_duration := by
    apply mul_le_mul_of_nonneg_right _ hΔ.le
    exact_mod_cast hlen
  have hT0 : 0 < (s.frames.length : ℚ) * s.frame_duration := by
    calc (0 : ℚ) < 2 * s.frame_duration := by positivity
    _ ≤ _ := hT2
  have habs1 : |(-2 : ℚ) * s.frame_duration| = 2 * s.frame_duration := by
    rw [abs_of_nonpos (by linarith)]
    ring
  have habs2 : |(-1 : ℚ) * s.frame_duration| = 1 * s.frame_duration := by
    rw [abs_of_nonpos (by linarith)]
    ring
  have hnod1 : ¬ ((s.frames.length : ℚ) * s.frame_duration <
      max |(-2 : ℚ) * s.frame_duration| |(-1 : ℚ) * s.frame_duration|) := by
    rw [habs1, habs2, max_eq_left (by linarith)]
    exact not_lt.mpr hT2
  have hr0 : (0 : ℚ) ≤ (s.frames.length : ℚ) * s.frame_duration -
      2 * s.frame_duration := by linarith
  have hr1 : (0 : ℚ) ≤ (s.frames.length : ℚ) * s.frame_duration -
      1 * s.frame_duration := by linarith
  have hnod2 : ¬ ((s.frames.length : ℚ) * s.frame_duration <
      max |(s.frames.length : ℚ) * s.frame_duration - 2 * s.frame_duration|
        |(s.frames.length : ℚ) * s.frame_duration - 1 * s.frame_duration|) := by
    rw [abs_of_nonneg hr0, abs_of_nonneg hr1, max_eq_right (by linarith)]
    apply not_lt.mpr
    linarith
  rw [potr_unfold_no_dither s _ _ anims hnod1, potr_unfold_no_dither s _ _ anims hnod2]
  have hm1 : py_float_mod (-2 * s.frame_duration)
      ((s.frames.length : ℚ) * s.frame_duration) =
      (s.frames.length : ℚ) * s.frame_duration - 2 * s.frame_duration := by
    rw [py_float_mod_of_neg (by linarith) (by linarith) hT0]
    ring
  have hm2 : py_float_mod (-1 * s.frame_duration)
      ((s.frames.length : ℚ) * s.frame_duration) =
      (s.frames.length : ℚ) * s.frame_duration - 1 * s.frame_duration := by
    rw [py_float_mod_of_neg (by linarith) (by linarith) hT0]
    ring
  rw [if_pos (show (-2 : ℚ) * s.frame_duration < 0 by linarith),
    if_pos (show (-1 : ℚ) * s.frame_duration < 0 by linarith),
    if_neg (not_lt.mpr hr0), if_neg (not_lt.mpr hr1), hm1, hm2]

theorem potr_negative_wraparound_witness :
    0 < ({ scene0 with
        frames := [[0, 0], [1, 1], [2, 2], [3, 3]] } : Scene).frame_duration ∧
    2 ≤ ({ scene0 with
        frames := [[0, 0], [1, 1], [2, 2], [3, 3]] } : Scene).frames.length ∧
    ({ scene0 with
        frames := [[0, 0], [1, 1], [2, 2], [3, 3]] } : Scene).play_over_time_range
      (-2 * ({ scene0 with
          frames := [[0, 0], [1, 1], [2, 2], [3, 3]] } : Scene).frame_duration)
      (-1 * ({ scene0 with
          frames := [[0, 0], [1, 1], [2, 2], [3, 3]] } : Scene).frame_duration)
      [anim1] =
    ({ scene0 with
        frames := [[0, 0], [1, 1], [2, 2], [3, 3]] } : Scene).play_over_time_range
      ((({ scene0 with
          frames := [[0, 0], [1, 1], [2, 2], [3, 3]] } : Scene).frames.length : ℚ) *
          ({ scene0 with
            frames := [[0, 0], [1, 1], [2, 2], [3, 3]] } : Scene).frame_duration -
        2 * ({ scene0 with
          frames := [[0, 0], [1, 1], [2, 2], [3, 3]] } : Scene).frame_duration)
      ((({ scene0 with
          frames := [[0, 0], [1, 1], [2, 2], [3, 3]] } : Scene).frames.length : ℚ) *
          ({ scene0 with
            frames := [[0, 0], [1, 1], [2, 2], [3, 3]] } : Scene).frame_duration -
        1 * ({ scene0 with
          frames := [[0, 0], [1, 1], [2, 2], [3, 3]] } : Scene).frame_duration)
      [anim1] :=
  ⟨by norm_num [scene0], by norm_num,
    potr_negative_wraparound { scene0 with frames := [[0, 0], [1, 1], [2, 2], [3, 3]] }
      [anim1] (by norm_num [scene0]) (by norm_num)⟩
